import Mathlib

/-!
Verification development for the pebble-voting-app core
(`pebble-core/voting`, `pebble-core/pubkey`).

The Go source is shallowly embedded: pure functions become Lean
functions, stateful operations are explicit state passing, Go `error`
returns become `Except`, and external collaborators (hash function,
credential system, VDF, ed25519, tezos key codec) are parameters of the
definitions, constrained only by their documented contracts.  Byte
strings are `List Nat` with each element intended below 256.
-/

namespace Pebble

/-- Byte strings, as used throughout the wire model. -/
abbrev Bytes := List Nat

/-! ### Election phases

From `election_params.go`: `ElectionPhase` is a `uint8` enum
`Setup = 0, CredGen = 1, Cast = 2, Tally = 3, End = 4`. -/

inductive ElectionPhase where
  | Setup
  | CredGen
  | Cast
  | Tally
  | End
deriving Repr, DecidableEq

/-- The numeric value of the Go `uint8` enum; Go code compares phases
with `<=` and `>=` on this value. -/
def ElectionPhase.val : ElectionPhase → Nat
  | .Setup => 0
  | .CredGen => 1
  | .Cast => 2
  | .Tally => 3
  | .End => 4

/-! ### Election parameters and the phase function

From `election_params.go`.  Strings are byte strings; the three
timestamps are unix seconds (`time.Time` values whose sub-second part
is irrelevant to every operation modelled here, since the codec writes
`Unix()` seconds and `Phase` only compares instants; we model the
wall clock at seconds granularity). -/

structure EligibilityList where
  publicKeyHashes : List Bytes
  /-- Field `idCommitments` is a Go `map`; `none` models a `nil` map
  (readable, but assignment into it panics). -/
  idCommitments : Option (List (Bytes × Bytes))
deriving Repr, DecidableEq

structure ElectionParams where
  version : Nat
  castStart : Int
  tallyStart : Int
  tallyEnd : Int
  maxVdfDifficulty : Nat
  votingMethod : Bytes
  title : Bytes
  description : Bytes
  choices : List Bytes
  eligibilityList : EligibilityList
deriving Repr, DecidableEq

/-- Function `ElectionParams.Phase` from `election_params.go`, with the ambient
`time.Now()` made an explicit argument `now`. -/
def ElectionParams.phase (p : ElectionParams) (now : Int) : ElectionPhase :=
  if now < p.castStart then .CredGen
  else if now < p.tallyStart then .Cast
  else if now < p.tallyEnd then .Tally
  else .End

/-! ### Go map model

Go `map` values are modelled as association lists without duplicate
keys; `mapInsert` is Go map assignment (overwrite the existing entry,
else append). -/

def mapLookup {α : Type} : List (Bytes × α) → Bytes → Option α
  | [], _ => none
  | (k, v) :: m, h => if k = h then some v else mapLookup m h

def mapInsert {α : Type} : List (Bytes × α) → Bytes → α → List (Bytes × α)
  | [], k, v => [(k, v)]
  | (k0, v0) :: m, k, v =>
    if k0 = k then (k0, v) :: m else (k0, v0) :: mapInsert m k v

def mapKeys {α : Type} (m : List (Bytes × α)) : List Bytes :=
  m.map Prod.fst

/-! ### Message structures

Modelled from the spec: the `pebble-core/voting/structs` message types
(`CredentialMessage`, `SignedBallot`, `EncryptedBallot`,
`DecryptionMessage`) are absent from `src/`; the fields below follow
spec section 3 verbatim.  Plaintext ballots are opaque bytes. -/

structure EncryptedBallot where
  vdfInput : Bytes
  ciphertext : Bytes
deriving Repr, DecidableEq

structure SignedBallot where
  encryptedBallot : EncryptedBallot
  serialNo : Bytes
  signature : Bytes
deriving Repr, DecidableEq

structure DecryptionMessage where
  inputHash : Bytes
  output : Bytes
  proof : Bytes
deriving Repr, DecidableEq

structure CredentialMessage where
  publicKey : Bytes
  credential : Bytes
  signature : Bytes
deriving Repr, DecidableEq

structure VdfSolution where
  input : Bytes
  output : Bytes
  proof : Bytes
deriving Repr, DecidableEq

/-- The broadcast-channel message, a tagged union.  The Go source uses
a record of four optional fields with exactly one populated (spec
section 9 note); the sum type is the equivalent shallow embedding. -/
inductive Message where
  | params (p : ElectionParams)
  | credential (m : CredentialMessage)
  | signedBallot (b : SignedBallot)
  | decryption (d : DecryptionMessage)
deriving Repr, DecidableEq

/-- Protocol-level errors surfaced by the election operations.
`ext code` stands for any error bubbled up from an external
collaborator (secrets manager, channel, VDF, crypto); those are
distinct values from `ErrWrongPhase` in the Go source. -/
inductive ProtoErr where
  | wrongPhase
  | ext (code : Nat)
deriving Repr, DecidableEq

/-! ### Credential aggregation (`Election.GetCredentialSet`, election.go)

External collaborators appear as parameters:
`sigOk c` models `msg.Credential.Verify(e.Id()) == nil` (the
credential-message signature check against the election id — it
receives the message and the election id only, never the eligibility
list), `ReadPublicCredential` models
`e.credSys.ReadPublicCredential` (public credentials are opaque
bytes), and `Hash` models `util.Hash` (the 32-byte hash). -/

/-- One iteration of the message loop of `GetCredentialSet`: skip
non-credential messages, messages whose signature check fails and
messages whose credential does not parse; otherwise Go assigns
`creds[util.Hash(msg.Credential.PublicKey)] = cred`.
Note the loop never consults the eligibility list. -/
def credStep (sigOk : CredentialMessage → Bool)
    (ReadPublicCredential : Bytes → Option Bytes) (Hash : Bytes → Bytes)
    (creds : List (Bytes × Bytes)) (msg : Message) : List (Bytes × Bytes) :=
  match msg with
  | .credential c =>
    if sigOk c then
      match ReadPublicCredential c.credential with
      | some cred => mapInsert creds (Hash c.publicKey) cred
      | none => creds
    else creds
  | _ => creds

/-- The `creds` map built by the message loop of `GetCredentialSet`,
starting from the empty map. -/
def credentialMap (sigOk : CredentialMessage → Bool)
    (ReadPublicCredential : Bytes → Option Bytes) (Hash : Bytes → Bytes)
    (msgs : List Message) : List (Bytes × Bytes) :=
  msgs.foldl (credStep sigOk ReadPublicCredential Hash) []

/-- Method `Election.GetCredentialSet` (election.go): phase guard, then the
credential-message loop; `MakeCredentialSet` over the values of the map is
represented by the map itself (its `Len` is the size of the map). -/
def GetCredentialSet (sigOk : CredentialMessage → Bool)
    (ReadPublicCredential : Bytes → Option Bytes) (Hash : Bytes → Bytes)
    (phase : ElectionPhase) (msgs : List Message) :
    Except ProtoErr (List (Bytes × Bytes)) :=
  if phase.val ≤ ElectionPhase.CredGen.val then .error .wrongPhase
  else .ok (credentialMap sigOk ReadPublicCredential Hash msgs)

/-- The valid credential entries of a log, in log order: one
`(hash of public key, parsed credential)` pair per credential message
that passes the signature check and parses.  Used to state what the
`creds` map contains. -/
def validCredEntries (sigOk : CredentialMessage → Bool)
    (ReadPublicCredential : Bytes → Option Bytes) (Hash : Bytes → Bytes)
    (msgs : List Message) : List (Bytes × Bytes) :=
  msgs.filterMap fun msg =>
    match msg with
    | .credential c =>
      if sigOk c then
        (ReadPublicCredential c.credential).map fun cred => (Hash c.publicKey, cred)
      else none
    | _ => none

/-- Keep the value of the entry at hand when its key is `h`, else the
value found so far. -/
def lwStep (h : Bytes) (acc : Option Bytes) (e : Bytes × Bytes) : Option Bytes :=
  if e.1 = h then some e.2 else acc

/-- The value of the last entry with key `h`, in list order
(`none` when no entry has key `h`). -/
def lastWins (es : List (Bytes × Bytes)) (h : Bytes) : Option Bytes :=
  es.foldl (lwStep h) none

/-- Method `EligibilityList.Contains` (from the Go source): a lookup in the
`idCommitments` map; reading a `nil` map simply finds nothing. -/
def EligibilityList.Contains (l : EligibilityList) (pkh : Bytes) : Bool :=
  match l.idCommitments with
  | some m => (mapLookup m pkh).isSome
  | none => false

/-! ### Progress (`Election.Progress` and `decryptBallot`, election.go)

External collaborators as parameters, bundled for readability:
`verifySB set b` models `signBallot.Verify(set)` (the credential-set
signature check over the encrypted-ballot bytes), `vdfVerify` models
`e.vdf.Verify`, `decrypt` models `encBallot.Decrypt(sol)` (returning
the plaintext ballot bytes or an error code), and `tallyFn` models
`e.method.Tally`. -/

structure ProgressEnv (τ : Type) where
  sigOk : CredentialMessage → Bool
  ReadPublicCredential : Bytes → Option Bytes
  Hash : Bytes → Bytes
  verifySB : List (Bytes × Bytes) → SignedBallot → Bool
  vdfVerify : VdfSolution → Bool
  decrypt : EncryptedBallot → VdfSolution → Except Nat Bytes
  tallyFn : List Bytes → τ

/-- The two error outcomes of `decryptBallot`: the sentinel
`ErrDecryptionNotFound`, or an error from `encBallot.Decrypt`. -/
inductive DecErr where
  | decryptionNotFound
  | decryptFailed (code : Nat)
deriving Repr, DecidableEq

/-- Function `decryptBallot` (election.go): scan the decryption messages in log
order for one whose `InputHash` equals `util.Hash(encBallot.VdfInput)`;
verify the reconstructed VDF solution, skipping candidates that fail
verification; on a verified solution, decrypt (returning the
`Decrypt` error as-is on failure); if no candidate works, return
`ErrDecryptionNotFound`. -/
def decryptBallot {τ : Type} (env : ProgressEnv τ) (encBallot : EncryptedBallot) :
    List DecryptionMessage → Except DecErr Bytes
  | [] => .error .decryptionNotFound
  | msg :: msgs =>
    if msg.inputHash = env.Hash encBallot.vdfInput then
      let sol : VdfSolution := ⟨encBallot.vdfInput, msg.output, msg.proof⟩
      if env.vdfVerify sol then
        match env.decrypt encBallot sol with
        | .ok ballot => .ok ballot
        | .error e => .error (.decryptFailed e)
      else decryptBallot env encBallot msgs
    else decryptBallot env encBallot msgs

/-- The accumulator of the signed-ballot loop in `Progress`:
`serialNos` is the `util.BytesSet`, `decBallots` the decrypted
ballots, and the three counters. -/
structure ProgressAcc where
  serialNos : List Bytes
  decBallots : List Bytes
  validSignBallots : Nat
  validDecBallots : Nat
  invalidDecBallots : Nat
deriving Repr, DecidableEq

/-- One iteration of the signed-ballot loop of `Progress`
(election.go lines 278-298).  Note, exactly as in the source: the
loop tests `serialNos.Contains(signBallot.SerialNo)` but never adds
anything to `serialNos`, so the set stays as it started. -/
def progressStep {τ : Type} (env : ProgressEnv τ) (set : List (Bytes × Bytes))
    (phase : ElectionPhase) (decMsgs : List DecryptionMessage)
    (acc : ProgressAcc) (signBallot : SignedBallot) : ProgressAcc :=
  if signBallot.serialNo ∈ acc.serialNos then acc
  else if env.verifySB set signBallot then
    let acc1 := { acc with validSignBallots := acc.validSignBallots + 1 }
    if ElectionPhase.Tally.val ≤ phase.val then
      match decryptBallot env signBallot.encryptedBallot decMsgs with
      | .ok ballot =>
        { acc1 with
          decBallots := acc1.decBallots ++ [ballot]
          validDecBallots := acc1.validDecBallots + 1 }
      | .error .decryptionNotFound => acc1
      | .error (.decryptFailed _) =>
        { acc1 with invalidDecBallots := acc1.invalidDecBallots + 1 }
    else acc1
  else acc

/-- The signed-ballot loop of `Progress`, started from the zero
accumulator (`var serialNos util.BytesSet` etc.). -/
def progressLoop {τ : Type} (env : ProgressEnv τ) (set : List (Bytes × Bytes))
    (phase : ElectionPhase) (signBallots : List SignedBallot)
    (decMsgs : List DecryptionMessage) : ProgressAcc :=
  signBallots.foldl (progressStep env set phase decMsgs) ⟨[], [], 0, 0, 0⟩

/-- The signed ballots of a log, in log order (`Progress` partitions
the fetched messages). -/
def signedBallotsOf (msgs : List Message) : List SignedBallot :=
  msgs.filterMap fun msg =>
    match msg with
    | .signedBallot b => some b
    | _ => none

/-- The decryption messages of a log, in log order. -/
def decryptionsOf (msgs : List Message) : List DecryptionMessage :=
  msgs.filterMap fun msg =>
    match msg with
    | .decryption d => some d
    | _ => none

/-- Record `ElectionProgress` (election.go): `Count` and `Total` are Go
`int`s; a `nil` tally map is `none`. -/
structure ElectionProgress (τ : Type) where
  phase : ElectionPhase
  count : Int
  total : Int
  tally : Option τ
deriving Repr, DecidableEq

/-- Method `Election.Progress` (election.go): early return while the phase is
at most CredGen; otherwise build the credential set, partition the
log, run the signed-ballot loop, and report per-phase figures. -/
def Progress {τ : Type} (env : ProgressEnv τ) (phase : ElectionPhase)
    (msgs : List Message) : ElectionProgress τ :=
  if phase.val ≤ ElectionPhase.CredGen.val then ⟨phase, 0, 0, none⟩
  else
    let set := credentialMap env.sigOk env.ReadPublicCredential env.Hash msgs
    let signBallots := signedBallotsOf msgs
    let decMsgs := decryptionsOf msgs
    let acc := progressLoop env set phase signBallots decMsgs
    if phase = .Cast then
      ⟨phase, acc.validSignBallots, set.length, none⟩
    else if phase = .Tally then
      ⟨phase, acc.validDecBallots,
        (acc.validSignBallots : Int) - (acc.invalidDecBallots : Int),
        some (env.tallyFn acc.decBallots)⟩
    else
      ⟨phase, acc.validDecBallots, acc.validSignBallots,
        some (env.tallyFn acc.decBallots)⟩

/-! ### Specification-level counters

Independent (filter-based) definitions of the quantities the loop in
`Progress` accumulates, used to state the reporting formulas. -/

/-- The signed ballots that pass the credential-set signature check,
in log order. -/
def verifiedBallots {τ : Type} (env : ProgressEnv τ) (set : List (Bytes × Bytes))
    (sbs : List SignedBallot) : List SignedBallot :=
  sbs.filter (env.verifySB set)

/-- Number of verified signed ballots. -/
def validSignSpec {τ : Type} (env : ProgressEnv τ) (set : List (Bytes × Bytes))
    (sbs : List SignedBallot) : Nat :=
  (verifiedBallots env set sbs).length

/-- Decrypted ballots of the verified signed ballots, in log order. -/
def decBallotsSpec {τ : Type} (env : ProgressEnv τ) (set : List (Bytes × Bytes))
    (decMsgs : List DecryptionMessage) (sbs : List SignedBallot) : List Bytes :=
  (verifiedBallots env set sbs).filterMap
    fun b => (decryptBallot env b.encryptedBallot decMsgs).toOption

/-- Number of verified signed ballots whose decryption succeeds. -/
def validDecSpec {τ : Type} (env : ProgressEnv τ) (set : List (Bytes × Bytes))
    (decMsgs : List DecryptionMessage) (sbs : List SignedBallot) : Nat :=
  (decBallotsSpec env set decMsgs sbs).length

/-- Number of verified signed ballots with a verified VDF solution
whose ballot decryption nevertheless fails. -/
def invalidDecSpec {τ : Type} (env : ProgressEnv τ) (set : List (Bytes × Bytes))
    (decMsgs : List DecryptionMessage) (sbs : List SignedBallot) : Nat :=
  ((verifiedBallots env set sbs).filter fun b =>
    match decryptBallot env b.encryptedBallot decMsgs with
    | .error (.decryptFailed _) => true
    | _ => false).length

/-! ### The caller-facing operations (`PostCredential`, `Vote`,
`PostBallotDecryption`, election.go)

Each operation is embedded as explicit state passing over the secrets
persisted values of the secrets manager, with the outcome of every external call
supplied by an environment record (a fallible call is an
`Except Nat _` or `Option Nat` field: `some e` / `.error e` means the
call fails with external error `e`).  Each operation also returns the
ordered trace of secrets-manager accesses and channel posts it
performed, so that "nothing was read / posted" is statable. -/

/-- Secrets-manager accesses and channel posts, in order. -/
inductive OpEvent where
  | getPrivateKey
  | getSecretCredential
  | getVdfSolution
  | setVdfSolution
  | setBallot
  | post
deriving Repr, DecidableEq

/-- The persisted per-election values of the secrets manager that `Vote`
writes (`SetVdfSolution`, `SetBallot`). -/
structure SecretsState where
  vdfSolution : Option VdfSolution
  ballot : Option SignedBallot
deriving Repr, DecidableEq

/-- Outcomes of the external calls made by `PostCredential`. -/
structure PostCredentialEnv where
  phase : ElectionPhase
  GetPrivateKey : Except Nat Unit
  GetSecretCredential : Except Nat Unit
  secPublic : Except Nat Unit
  signErr : Option Nat
  postErr : Option Nat

/-- Method `Election.PostCredential` (election.go): phase guard, then load
the private key and secret credential, derive the public credential,
sign the credential message, and post it. -/
def PostCredential (env : PostCredentialEnv) :
    Except ProtoErr Unit × List OpEvent :=
  if env.phase ≠ .CredGen then (.error .wrongPhase, [])
  else
    match env.GetPrivateKey with
    | .error e => (.error (.ext e), [.getPrivateKey])
    | .ok _ =>
      match env.GetSecretCredential with
      | .error e => (.error (.ext e), [.getPrivateKey, .getSecretCredential])
      | .ok _ =>
        match env.secPublic with
        | .error e => (.error (.ext e), [.getPrivateKey, .getSecretCredential])
        | .ok _ =>
          match env.signErr with
          | some e => (.error (.ext e), [.getPrivateKey, .getSecretCredential])
          | none =>
            match env.postErr with
            | some e => (.error (.ext e), [.getPrivateKey, .getSecretCredential, .post])
            | none => (.ok (), [.getPrivateKey, .getSecretCredential, .post])

/-- Outcomes of the external calls made by `Vote`, in program order:
`channelGetErr`/`makeSetErr` belong to the inner `GetCredentialSet`
call, then VDF creation, the `SetVdfSolution` write, the secret
credential load, ballot encryption, credential-set signing, the
`SetBallot` write, and the channel post. -/
structure VoteEnv where
  phase : ElectionPhase
  channelGetErr : Option Nat
  makeSetErr : Option Nat
  vdfCreate : Except Nat VdfSolution
  setVdfSolutionErr : Option Nat
  GetSecretCredential : Except Nat Unit
  encryptErr : Option Nat
  signBallot : Except Nat SignedBallot
  setBallotErr : Option Nat
  postErr : Option Nat

/-- Method `Election.Vote` (election.go): phase guard; `GetCredentialSet`
(whose own guard re-checks the phase); `vdf.Create`;
`SetVdfSolution`; `GetSecretCredential`; `method.Vote` (infallible)
and `ballot.Encrypt`; `encBallot.Sign`; `SetBallot`; post.  A
successful `SetVdfSolution` persists the solution at that point, a
successful `SetBallot` persists the signed ballot at that point; a
failed write leaves the state as it was (spec section 5: secrets
files are written atomically). -/
def Vote (env : VoteEnv) (s : SecretsState) :
    Except ProtoErr Unit × SecretsState × List OpEvent :=
  if env.phase ≠ .Cast then (.error .wrongPhase, s, [])
  else if env.phase.val ≤ ElectionPhase.CredGen.val then (.error .wrongPhase, s, [])
  else
    match env.channelGetErr with
    | some e => (.error (.ext e), s, [])
    | none =>
      match env.makeSetErr with
      | some e => (.error (.ext e), s, [])
      | none =>
        match env.vdfCreate with
        | .error e => (.error (.ext e), s, [])
        | .ok sol =>
          match env.setVdfSolutionErr with
          | some e => (.error (.ext e), s, [.setVdfSolution])
          | none =>
            let s1 : SecretsState := { s with vdfSolution := some sol }
            match env.GetSecretCredential with
            | .error e => (.error (.ext e), s1, [.setVdfSolution, .getSecretCredential])
            | .ok _ =>
              match env.encryptErr with
              | some e => (.error (.ext e), s1, [.setVdfSolution, .getSecretCredential])
              | none =>
                match env.signBallot with
                | .error e => (.error (.ext e), s1, [.setVdfSolution, .getSecretCredential])
                | .ok sb =>
                  match env.setBallotErr with
                  | some e =>
                    (.error (.ext e), s1, [.setVdfSolution, .getSecretCredential, .setBallot])
                  | none =>
                    let s2 : SecretsState := { s1 with ballot := some sb }
                    match env.postErr with
                    | some e =>
                      (.error (.ext e), s2,
                        [.setVdfSolution, .getSecretCredential, .setBallot, .post])
                    | none =>
                      (.ok (), s2,
                        [.setVdfSolution, .getSecretCredential, .setBallot, .post])

/-- Outcomes of the external calls made by `PostBallotDecryption`. -/
structure PostDecEnv where
  phase : ElectionPhase
  postErr : Option Nat

/-- Method `Election.PostBallotDecryption` (election.go): phase guard, build
the decryption message (infallible), post it. -/
def PostBallotDecryption (env : PostDecEnv) :
    Except ProtoErr Unit × List OpEvent :=
  if env.phase ≠ .Tally then (.error .wrongPhase, [])
  else
    match env.postErr with
    | some e => (.error (.ext e), [.post])
    | none => (.ok (), [.post])

/-- True exactly on `Except.error`. -/
def isErr {ε α : Type} : Except ε α → Bool
  | .error _ => true
  | .ok _ => false

instance {ε α : Type} [DecidableEq ε] [DecidableEq α] : DecidableEq (Except ε α) :=
  fun x y =>
    match x, y with
    | .error a, .error b =>
      if h : a = b then .isTrue (congrArg Except.error h)
      else .isFalse fun hc => h (by injection hc)
    | .ok a, .ok b =>
      if h : a = b then .isTrue (congrArg Except.ok h)
      else .isFalse fun hc => h (by injection hc)
    | .error _, .ok _ => .isFalse fun hc => Except.noConfusion hc
    | .ok _, .error _ => .isFalse fun hc => Except.noConfusion hc

/-! ### Wire codec

Modelled from the spec: the `util` buffer writer/reader package is
absent from `src/`; spec section 4.1 defines it (big-endian integers,
length-prefixed vectors with a one-byte count below 128 and otherwise
two bytes carrying a 15-bit big-endian count with the high bit of the
first byte set, `short-buffer` on underrun).  A writer is the byte
string accumulated so far; a reader is the byte string still to be
consumed. -/

/-- Codec-layer errors, plus `nilMapAssignment` for the Go runtime
panic of assigning into a `nil` map. -/
inductive CodecErr where
  | shortBuffer
  | unknownVersion
  | unknownMagic
  | duplicateKey
  | nilMapAssignment
deriving Repr, DecidableEq

namespace util

/-- The `n`-byte big-endian representation of `v % 256^n`. -/
def beBytes : Nat → Nat → Bytes
  | 0, _ => []
  | n + 1, v => beBytes n (v / 256) ++ [v % 256]

/-- Big-endian value of a byte string. -/
def beVal (l : Bytes) : Nat :=
  l.foldl (fun a b => a * 256 + b) 0

def WriteUint32 (w : Bytes) (v : Nat) : Bytes := w ++ beBytes 4 v

def WriteUint64 (w : Bytes) (v : Nat) : Bytes := w ++ beBytes 8 v

def WriteByte (w : Bytes) (b : Nat) : Bytes := w ++ [b % 256]

def Write (w : Bytes) (p : Bytes) : Bytes := w ++ p

def WriteVector (w : Bytes) (p : Bytes) : Bytes :=
  if p.length < 128 then w ++ [p.length] ++ p
  else w ++ [128 + p.length / 256, p.length % 256] ++ p

def ReadUint32 (r : Bytes) : Except CodecErr (Nat × Bytes) :=
  if 4 ≤ r.length then .ok (beVal (r.take 4), r.drop 4) else .error .shortBuffer

def ReadUint64 (r : Bytes) : Except CodecErr (Nat × Bytes) :=
  if 8 ≤ r.length then .ok (beVal (r.take 8), r.drop 8) else .error .shortBuffer

def ReadByte (r : Bytes) : Except CodecErr (Nat × Bytes) :=
  match r with
  | [] => .error .shortBuffer
  | b :: rest => .ok (b, rest)

def Read32 (r : Bytes) : Except CodecErr (Bytes × Bytes) :=
  if 32 ≤ r.length then .ok (r.take 32, r.drop 32) else .error .shortBuffer

def ReadVector (r : Bytes) : Except CodecErr (Bytes × Bytes) :=
  match r with
  | [] => .error .shortBuffer
  | b0 :: rest =>
    if b0 < 128 then
      if b0 ≤ rest.length then .ok (rest.take b0, rest.drop b0)
      else .error .shortBuffer
    else
      match rest with
      | [] => .error .shortBuffer
      | b1 :: rest2 =>
        let n := (b0 - 128) * 256 + b1
        if n ≤ rest2.length then .ok (rest2.take n, rest2.drop n)
        else .error .shortBuffer

def ReadRemaining (r : Bytes) : Bytes × Bytes := (r, [])

end util

/-! ### Eligibility-list codec (from the Go source in `src/`) -/

/-- The `0x454c4c01` roster magic. -/
def ellMagic : Nat := 0x454c4c01

/-- Constructor `NewEligibilityList`: empty list with an allocated (non-nil)
map. -/
def NewEligibilityList : EligibilityList := ⟨[], some []⟩

/-- Method `EligibilityList.IdCommitment`: map lookup; `none` when absent or
when the map is nil. -/
def EligibilityList.IdCommitment (l : EligibilityList) (pkh : Bytes) : Option Bytes :=
  match l.idCommitments with
  | some m => mapLookup m pkh
  | none => none

/-- Method `EligibilityList.Add` (Go source): return `false` if `pkh` is
already present (reading a nil map finds nothing), else append `pkh`
to the ordered list and assign into the `idCommitments` map.  In Go,
assignment into a nil map is a runtime panic — modelled as the
`nilMapAssignment` error. -/
def EligibilityList.Add (l : EligibilityList) (pkh idCom : Bytes) :
    Except CodecErr (Bool × EligibilityList) :=
  if l.Contains pkh then .ok (false, l)
  else
    match l.idCommitments with
    | some m => .ok (true, ⟨l.publicKeyHashes ++ [pkh], some (mapInsert m pkh idCom)⟩)
    | none => .error .nilMapAssignment

/-- Method `EligibilityList.Bytes` (Go source): the magic, then each 32-byte
`pkh` followed by its 32-byte id-commitment (a missing commitment is
the zero-valued hash, as in Go). -/
def EligibilityList.Bytes (l : EligibilityList) : List Nat :=
  l.publicKeyHashes.foldl
    (fun w pkh => util.Write (util.Write w pkh) ((l.IdCommitment pkh).getD (List.replicate 32 0)))
    (util.WriteUint32 [] ellMagic)

/-- The read loop of `EligibilityList.FromBytes`: while bytes remain,
read a 32-byte `pkh` and a 32-byte id-commitment and `Add` them,
rejecting a duplicate with `duplicate-key`; `Add` panics when the map
is nil. -/
def ellFromBytesLoop (fuel : Nat) (l : EligibilityList) (r : Bytes) :
    Except CodecErr EligibilityList :=
  match fuel with
  | 0 => if r.isEmpty then .ok l else .error .shortBuffer
  | fuel + 1 =>
    if r.isEmpty then .ok l
    else if 32 ≤ r.length then
      if 32 ≤ (r.drop 32).length then
        match l.Add (r.take 32) ((r.drop 32).take 32) with
        | .error e => .error e
        | .ok (false, _) => .error .duplicateKey
        | .ok (true, l2) => ellFromBytesLoop fuel l2 ((r.drop 32).drop 32)
      else .error .shortBuffer
    else .error .shortBuffer

/-- Method `EligibilityList.FromBytes` (Go source): read and check the magic,
clear the hash list and set the `idCommitments` map to nil, then run
the read loop.  The loop recurses structurally on a `fuel` bound set
to the buffer length; each iteration consumes 64 bytes, so under the
invariant `r.length ≤ fuel` (established here and preserved by the
recursion) the exhaustion branch is unreachable — see
`ellFromBytesLoop_fuel_irrelevant`. -/
def EligibilityList.FromBytes (p : List Nat) : Except CodecErr EligibilityList :=
  match util.ReadUint32 p with
  | .error e => .error e
  | .ok (m, r) =>
    if m ≠ ellMagic then .error .unknownMagic
    else ellFromBytesLoop r.length ⟨[], none⟩ r

/-! ### Election-parameters codec (from the Go source in `src/`) -/

/-- Go `uint64(t)` of an `int64` timestamp: the twos-complement bit
pattern, i.e. the value modulo `2^64`. -/
def toUInt64val (i : Int) : Nat := (i % (2 : Int) ^ 64).toNat

/-- Go `int64(t)` of a `uint64`: the inverse bit-pattern conversion. -/
def toInt64val (n : Nat) : Int :=
  if n < 2 ^ 63 then (n : Int) else (n : Int) - (2 : Int) ^ 64

/-- Method `ElectionParams.Bytes` (Go source): version, the three timestamps
as `uint64` unix seconds, the difficulty bound, the method, title and
description as vectors, a one-byte choice count, each choice as a
vector, then the raw roster bytes. -/
def ElectionParams.Bytes (p : ElectionParams) : List Nat :=
  let w := util.WriteUint32 [] p.version
  let w := util.WriteUint64 w (toUInt64val p.castStart)
  let w := util.WriteUint64 w (toUInt64val p.tallyStart)
  let w := util.WriteUint64 w (toUInt64val p.tallyEnd)
  let w := util.WriteUint64 w p.maxVdfDifficulty
  let w := util.WriteVector w p.votingMethod
  let w := util.WriteVector w p.title
  let w := util.WriteVector w p.description
  let w := util.WriteByte w p.choices.length
  let w := p.choices.foldl util.WriteVector w
  util.Write w p.eligibilityList.Bytes

/-- The choice-reading loop of `ElectionParams.FromBytes`. -/
def readChoices : Nat → Bytes → Except CodecErr (List Bytes × Bytes)
  | 0, r => .ok ([], r)
  | n + 1, r =>
    match util.ReadVector r with
    | .error e => .error e
    | .ok (c, r2) =>
      match readChoices n r2 with
      | .error e => .error e
      | .ok (cs, r3) => .ok (c :: cs, r3)

/-- Method `ElectionParams.FromBytes` (Go source): the reads in serialization
order, rejecting a nonzero version with `unknown-version`, ending
with `EligibilityList.FromBytes` on the remaining bytes. -/
def ElectionParams.FromBytes (b : List Nat) : Except CodecErr ElectionParams := do
  let (version, r) ← util.ReadUint32 b
  if version ≠ 0 then throw .unknownVersion
  let (t1, r) ← util.ReadUint64 r
  let castStart := toInt64val t1
  let (t2, r) ← util.ReadUint64 r
  let tallyStart := toInt64val t2
  let (t3, r) ← util.ReadUint64 r
  let tallyEnd := toInt64val t3
  let (maxVdfDifficulty, r) ← util.ReadUint64 r
  let (votingMethod, r) ← util.ReadVector r
  let (title, r) ← util.ReadVector r
  let (description, r) ← util.ReadVector r
  let (numChoices, r) ← util.ReadByte r
  let (choices, r) ← readChoices numChoices r
  let ell ← EligibilityList.FromBytes (util.ReadRemaining r).1
  pure ⟨version, castStart, tallyStart, tallyEnd, maxVdfDifficulty,
    votingMethod, title, description, choices, ell⟩

/-! ### Identity keys (`pebble-core/pubkey/pubkey.go`)

The repository carries two conflicting copies of `package pubkey`:
`pubkey.go` (key-type enum `ed25519 = 0, tezos = 1`, `GenerateKey`
returning the raw ed25519 public key), and an updated copy appended
to `anoncred/anoncred1_instance.go` (enum `unknown = 0, ed25519 = 1,
tezos = 2`, `GenerateKey` prefixing the key-type tag byte via
`newPublicKey`).  This namespace embeds `pubkey.go`, the copy the
claims cite for `GenerateKey` and `Verify`.

The ed25519 primitive is an external collaborator: any structure
satisfying the standard signature-scheme contract.  The body of the
Tezos arm of `Verify` (decode the key, parse and check the
signature over the message hash) is likewise abstracted as a
parameter `tzV`. -/

namespace pubkey

/-- Contract of the external `crypto/ed25519` package: 32-byte public
keys, and signatures produced by `Sign` verify under the matching
public key. -/
structure Ed25519 where
  pubOf : Bytes → Bytes
  sign : Bytes → Bytes → Bytes
  verify : Bytes → Bytes → Bytes → Bool
  pubLen : ∀ s, (pubOf s).length = 32
  verifySign : ∀ s m, verify (pubOf s) m (sign s m) = true

/-- Key errors of `pubkey.go`. -/
inductive PKErr where
  | invalidKeyLength
  | unknownKeyType
  | invalidSignature
deriving Repr, DecidableEq

/-- Constant `KeyTypeEd25519` in `pubkey.go` (the first enum value: 0). -/
def KeyTypeEd25519 : Nat := 0

/-- Constant `KeyTypeTezos` in `pubkey.go` (the second enum value: 1). -/
def KeyTypeTezos : Nat := 1

/-- Record `PrivateKey` of `pubkey.go`: key type, public key bytes, secret
bytes. -/
structure PrivateKey where
  t : Nat
  p : Bytes
  s : Bytes
deriving Repr, DecidableEq

/-- Function `GenerateKey(KeyTypeEd25519)` from `pubkey.go`: the public key is
the raw ed25519 public key — `PublicKey(pub)`, with NO key-type tag
byte prepended (contrast `newPublicKey` in the updated copy). -/
def GenerateKey (E : Ed25519) (seed : Bytes) : PrivateKey :=
  ⟨KeyTypeEd25519, E.pubOf seed, seed⟩

/-- Method `PrivateKey.Sign` from `pubkey.go`, ed25519 arm (the Tezos arm is
out of scope for the generated-ed25519 keys considered here). -/
def Sign (E : Ed25519) (k : PrivateKey) (msg : Bytes) : Except PKErr Bytes :=
  if k.t = KeyTypeEd25519 then .ok (E.sign k.s msg)
  else .error .unknownKeyType

/-- Method `PublicKey.Verify` from `pubkey.go`: dispatch on the FIRST BYTE of
the key (`switch k[0]`); the ed25519 arm requires the remaining bytes
to be a 32-byte key; the Tezos arm is the abstracted `tzV`; any other
first byte is `unknown-key-type`. -/
def Verify (E : Ed25519) (tzV : Bytes → Bytes → Bytes → Except PKErr Unit)
    (k : Bytes) (msg sig : Bytes) : Except PKErr Unit :=
  match k with
  | [] => .error .invalidKeyLength
  | t :: rest =>
    if t = KeyTypeEd25519 then
      if rest.length ≠ 32 then .error .invalidKeyLength
      else if E.verify rest msg sig then .ok () else .error .invalidSignature
    else if t = KeyTypeTezos then tzV rest msg sig
    else .error .unknownKeyType

/-- A concrete ed25519 stand-in satisfying the contract, for
evaluating the embedding on explicit inputs: the public key of a seed
is the seed padded/truncated to 32 bytes, a signature is the public
key followed by the message. -/
def toyEd : Ed25519 where
  pubOf s := (s ++ List.replicate 32 0).take 32
  sign s m := (s ++ List.replicate 32 0).take 32 ++ m
  verify pk m sig := sig = pk ++ m
  pubLen s := by
    simp [List.length_take, List.length_append]
  verifySign s m := by
    simp

end pubkey

/-! ### Concrete evaluation inputs

Explicit instantiations of the external collaborators and small
concrete logs, used to evaluate the embedded operations at specific
inputs. -/

/-- A progress environment in which every credential-message
signature verifies, credentials parse as themselves, the hash is the
identity, every signed ballot verifies against the set, every VDF
solution verifies, decryption always succeeds with ballot `[0]`, and
the tally is the number of ballots. -/
def allOkEnv : ProgressEnv Nat where
  sigOk _ := true
  ReadPublicCredential := some
  Hash p := p
  verifySB _ _ := true
  vdfVerify _ := true
  decrypt _ _ := .ok [0]
  tallyFn bs := bs.length

/-- First of two distinct valid signed ballots sharing serial number
`[9]`. -/
def dupBallot1 : SignedBallot := ⟨⟨[1], [10]⟩, [9], [7]⟩

/-- Second of two distinct valid signed ballots sharing serial number
`[9]`. -/
def dupBallot2 : SignedBallot := ⟨⟨[2], [20]⟩, [9], [8]⟩

/-- A log holding exactly the two duplicate-serial signed ballots, in
order. -/
def dupSerialLog : List Message :=
  [.signedBallot dupBallot1, .signedBallot dupBallot2]

/-- A five-entry eligibility roster: public-key hashes `[1]` … `[5]`. -/
def roster5 : EligibilityList :=
  ⟨[[1], [2], [3], [4], [5]],
    some [([1], [0]), ([2], [0]), ([3], [0]), ([4], [0]), ([5], [0])]⟩

/-- A credential message from public key `[k]` carrying credential
`[100 + k]` (the signature bytes are irrelevant under `allOkEnv`). -/
def credMsgFrom (k : Nat) : CredentialMessage := ⟨[k], [100 + k], []⟩

/-- A log with six well-formed, correctly signed credential messages:
five from roster keys `[1]` … `[5]` and a sixth from key `[6]`,
which is not on `roster5`. -/
def sixCredLog : List Message :=
  [.credential (credMsgFrom 1), .credential (credMsgFrom 2),
    .credential (credMsgFrom 3), .credential (credMsgFrom 4),
    .credential (credMsgFrom 5), .credential (credMsgFrom 6)]

/-- A 32-byte public-key hash. -/
def pkh1 : List Nat := List.replicate 32 1

/-- A 32-byte id-commitment. -/
def idCom1 : List Nat := List.replicate 32 2

/-- The one-entry roster obtained by `Add`-ing `(pkh1, idCom1)` to a
fresh list. -/
def oneEntryList : EligibilityList := ⟨[pkh1], some [(pkh1, idCom1)]⟩

/-- Election parameters with the one-entry roster, a known method and
one choice. -/
def oneEntryParams : ElectionParams :=
  ⟨0, 100, 200, 300, 5, [80], [84], [68], [[65]], oneEntryList⟩

/-- A `Vote` run in the Cast phase in which VDF creation and the
`SetVdfSolution` write succeed and the following step — loading the
secret credential — fails with external error 7. -/
def failAfterVdfEnv : VoteEnv :=
  ⟨.Cast, none, none, .ok ⟨[1], [2], [3]⟩, none, .error 7, none,
    .ok dupBallot1, none, none⟩

/-- Empty persisted secrets state. -/
def emptySecrets : SecretsState := ⟨none, none⟩

/-- The same `Vote` environment during CredGen, for exercising the
phase guard. -/
def credGenVoteEnv : VoteEnv := { failAfterVdfEnv with phase := .CredGen }

/-- A log with one signed ballot and a decryption message whose
`inputHash` matches the VDF input of the ballot under `allOkEnv` (the
identity hash) — a premature reveal. -/
def castWithDecLog : List Message :=
  [.signedBallot dupBallot1, .decryption ⟨[1], [5], [6]⟩]

/-- A 32-byte ed25519 seed all of whose bytes are 5, so that the raw
public key produced by `toyEd` starts with byte 5. -/
def seed5 : Bytes := List.replicate 32 5

/-- A message to sign. -/
def msgABC : Bytes := [1, 2, 3]

/-- An instantiation of the Tezos arm of `Verify` (never reached in
the evaluations below, which exercise first byte 5): it accepts
everything, so the failures shown cannot be blamed on it. -/
def tzAccepting : Bytes → Bytes → Bytes → Except pubkey.PKErr Unit :=
  fun _ _ _ => .ok ()

end Pebble

/-- C10: for every `ElectionParams` and every wall-clock time,
`ElectionParams.Phase` returns one of CredGen, Cast, Tally, End and
never Setup; consequently a phase that is `<= CredGen` (in the Go
`uint8` order used by the early return of `Progress`) is exactly
`CredGen`, so the `Setup` arm of consumers of `Phase()` is
unreachable through a constructed `Election`. -/
theorem phase_never_setup (p : Pebble.ElectionParams) (now : Int) :
    p.phase now ≠ Pebble.ElectionPhase.Setup ∧
    ((p.phase now).val ≤ Pebble.ElectionPhase.CredGen.val →
      p.phase now = Pebble.ElectionPhase.CredGen) := by
  unfold Pebble.ElectionParams.phase
  split
  · exact ⟨by simp, fun _ => rfl⟩
  · split
    · exact ⟨by simp, by simp [Pebble.ElectionPhase.val]⟩
    · split
      · exact ⟨by simp, by simp [Pebble.ElectionPhase.val]⟩
      · exact ⟨by simp, by simp [Pebble.ElectionPhase.val]⟩

/-- Witness for C10 at a concrete parameter record and instant. -/
theorem phase_never_setup_witness :
    (Pebble.ElectionParams.mk 0 10 20 30 0 [] [] [] [] ⟨[], some []⟩).phase 5 ≠
      Pebble.ElectionPhase.Setup :=
  (phase_never_setup (Pebble.ElectionParams.mk 0 10 20 30 0 [] [] [] [] ⟨[], some []⟩) 5).1

/-- C1: the signed-ballot loop of `Progress` never records serial
numbers (`serialNos.Add` is missing from the source), so two distinct
valid signed ballots sharing a serial number are BOTH counted in
`valid_sign`: at the two-ballot log below, `Progress` in the Cast
phase reports `count = 2`, not 1 as the claim states. -/
theorem double_vote_counted_twice :
    Pebble.dupBallot1 ≠ Pebble.dupBallot2 ∧
    Pebble.dupBallot1.serialNo = Pebble.dupBallot2.serialNo ∧
    (Pebble.Progress Pebble.allOkEnv .Cast Pebble.dupSerialLog).count = 2 := by
  decide

/-- C2: `GetCredentialSet` never consults the eligibility list: with
five roster keys and a sixth well-formed, correctly signed credential
message from key `[6]` not on the roster, the credential set has size
6 and contains the ineligible credential. -/
theorem ineligible_credential_included :
    Pebble.GetCredentialSet Pebble.allOkEnv.sigOk Pebble.allOkEnv.ReadPublicCredential
        Pebble.allOkEnv.Hash .Cast Pebble.sixCredLog =
      .ok (Pebble.credentialMap Pebble.allOkEnv.sigOk Pebble.allOkEnv.ReadPublicCredential
        Pebble.allOkEnv.Hash Pebble.sixCredLog) ∧
    (Pebble.credentialMap Pebble.allOkEnv.sigOk Pebble.allOkEnv.ReadPublicCredential
      Pebble.allOkEnv.Hash Pebble.sixCredLog).length = 6 ∧
    Pebble.mapLookup (Pebble.credentialMap Pebble.allOkEnv.sigOk
      Pebble.allOkEnv.ReadPublicCredential Pebble.allOkEnv.Hash Pebble.sixCredLog) [6] =
      some [106] ∧
    Pebble.roster5.Contains (Pebble.allOkEnv.Hash (Pebble.credMsgFrom 6).publicKey) = false := by
  decide

/-- C3: `EligibilityList.FromBytes` clears `idCommitments` to a nil
map and then `Add` assigns into it — in Go a runtime panic on every
roster with at least one entry.  At the one-entry roster built by a
successful `Add`, both `EligibilityList.FromBytes ∘ Bytes` and
`ElectionParams.FromBytes ∘ Bytes` hit the nil-map assignment instead
of reconstructing the value. -/
theorem roster_roundtrip_nil_map_panic :
    Pebble.NewEligibilityList.Add Pebble.pkh1 Pebble.idCom1 =
      Except.ok (true, Pebble.oneEntryList) ∧
    Pebble.EligibilityList.FromBytes Pebble.oneEntryList.Bytes =
      Except.error Pebble.CodecErr.nilMapAssignment ∧
    Pebble.ElectionParams.FromBytes Pebble.oneEntryParams.Bytes =
      Except.error Pebble.CodecErr.nilMapAssignment := by
  refine ⟨by decide, by decide, by decide⟩

/-- C4 counterexample: a `Vote` run in the Cast phase in which every
step up to and including the `SetVdfSolution` write succeeds and the
next step (loading the secret credential) fails: `Vote` returns the
error, yet the persisted state now holds the created VDF solution —
it is not unchanged. -/
theorem vote_error_persists_solution :
    Pebble.isErr (Pebble.Vote Pebble.failAfterVdfEnv Pebble.emptySecrets).1 = true ∧
    (Pebble.Vote Pebble.failAfterVdfEnv Pebble.emptySecrets).2.1 ≠ Pebble.emptySecrets ∧
    (Pebble.Vote Pebble.failAfterVdfEnv Pebble.emptySecrets).2.1.vdfSolution =
      some ⟨[1], [2], [3]⟩ := by
  decide

/-- C8: `GenerateKey` in `pubkey.go` returns the raw 32-byte ed25519
public key with no key-type tag, while `Verify` dispatches on the
first byte of the key: for the seed of 5-bytes the generated public
key starts with byte 5 (not the `KeyTypeEd25519` tag), and verifying
the own signature of the key fails with `unknown-key-type` even though the
underlying ed25519 signature is valid for the very same key bytes. -/
theorem pubkey_generated_key_never_verifies :
    (Pebble.pubkey.GenerateKey Pebble.pubkey.toyEd Pebble.seed5).p.head? = some 5 ∧
    (Pebble.pubkey.GenerateKey Pebble.pubkey.toyEd Pebble.seed5).p.head? ≠
      some Pebble.pubkey.KeyTypeEd25519 ∧
    Pebble.pubkey.Sign Pebble.pubkey.toyEd
        (Pebble.pubkey.GenerateKey Pebble.pubkey.toyEd Pebble.seed5) Pebble.msgABC =
      Except.ok (Pebble.pubkey.toyEd.sign Pebble.seed5 Pebble.msgABC) ∧
    Pebble.pubkey.Verify Pebble.pubkey.toyEd Pebble.tzAccepting
        (Pebble.pubkey.GenerateKey Pebble.pubkey.toyEd Pebble.seed5).p Pebble.msgABC
        (Pebble.pubkey.toyEd.sign Pebble.seed5 Pebble.msgABC) =
      Except.error Pebble.pubkey.PKErr.unknownKeyType ∧
    Pebble.pubkey.toyEd.verify (Pebble.pubkey.toyEd.pubOf Pebble.seed5) Pebble.msgABC
      (Pebble.pubkey.toyEd.sign Pebble.seed5 Pebble.msgABC) = true := by
  decide

/-- The `ellFromBytesLoop` fuel bound is irrelevant whenever it is at
least the buffer length (each iteration consumes 64 bytes), so the
structural-fuel embedding agrees with the Go while-loop. -/
theorem ellFromBytesLoop_fuel_irrelevant :
    ∀ f1 f2 (l : Pebble.EligibilityList) (r : List Nat),
      r.length ≤ f1 → r.length ≤ f2 →
      Pebble.ellFromBytesLoop f1 l r = Pebble.ellFromBytesLoop f2 l r := by
  intro f1
  induction f1 with
  | zero =>
    intro f2 l r h1 _
    have hr : r = [] := List.eq_nil_of_length_eq_zero (Nat.le_zero.mp h1)
    subst hr
    cases f2 <;> simp [Pebble.ellFromBytesLoop]
  | succ n ih =>
    intro f2 l r h1 h2
    cases f2 with
    | zero =>
      have hr : r = [] := List.eq_nil_of_length_eq_zero (Nat.le_zero.mp h2)
      subst hr
      simp [Pebble.ellFromBytesLoop]
    | succ m =>
      by_cases he : r.isEmpty
      · simp [Pebble.ellFromBytesLoop, he]
      · by_cases h32 : 32 ≤ r.length
        · by_cases h64 : 32 ≤ (r.drop 32).length
          · have hlen : 64 ≤ r.length := by
              simp only [List.length_drop] at h64
              omega
            rcases hA : Pebble.EligibilityList.Add l (r.take 32) ((r.drop 32).take 32) with
              e | ⟨b, l2⟩
            · simp [Pebble.ellFromBytesLoop, he, h32, h64, hA]
            · cases b
              · simp [Pebble.ellFromBytesLoop, he, h32, h64, hA]
              · simp only [Pebble.ellFromBytesLoop, he, h32, h64, hA, if_true, if_false,
                  Bool.false_eq_true, ite_false, ite_true]
                exact ih m l2 ((r.drop 32).drop 32)
                  (by simp only [List.length_drop]; omega)
                  (by simp only [List.length_drop]; omega)
          · simp only [List.length_drop] at h64
            simp [Pebble.ellFromBytesLoop, he, h32, h64]
        · simp [Pebble.ellFromBytesLoop, he, h32]

/-- C4 (amended): a `Vote` run that fails at or before the
`SetVdfSolution` write — wrong phase, credential-set retrieval
failure, VDF-creation failure, or a failing solution write — returns
the error with the persisted state unchanged.  (A failure after a
successful solution write leaves the solution persisted; see the
counterexample.) -/
theorem vote_unchanged_on_failure_before_solution_write
    (env : Pebble.VoteEnv) (s : Pebble.SecretsState)
    (h : env.phase ≠ .Cast ∨ env.channelGetErr.isSome = true ∨
      env.makeSetErr.isSome = true ∨ Pebble.isErr env.vdfCreate = true ∨
      env.setVdfSolutionErr.isSome = true) :
    Pebble.isErr (Pebble.Vote env s).1 = true ∧ (Pebble.Vote env s).2.1 = s := by
  obtain ⟨ph, cg, ms, vc, sv, gsc, er, sb, sbe, pe⟩ := env
  cases ph <;> cases cg <;> cases ms <;> cases vc <;> cases sv <;>
    simp_all [Pebble.Vote, Pebble.isErr, Pebble.ElectionPhase.val]

/-- Witness for the amended C4: a wrong-phase `Vote` run leaves the
empty secrets state unchanged. -/
theorem vote_unchanged_on_failure_witness :
    Pebble.isErr (Pebble.Vote Pebble.credGenVoteEnv Pebble.emptySecrets).1 = true ∧
    (Pebble.Vote Pebble.credGenVoteEnv Pebble.emptySecrets).2.1 = Pebble.emptySecrets :=
  vote_unchanged_on_failure_before_solution_write Pebble.credGenVoteEnv Pebble.emptySecrets
    (Or.inl (by decide))

/-- C7: each caller-facing operation returns `wrong-phase` exactly
when its phase guard fails (`PostCredential` off CredGen, `Vote` off
Cast, `PostBallotDecryption` off Tally) — external-collaborator
failures surface as distinct errors — and a failed phase guard
performs no secrets-manager access and no post (empty event trace;
`Vote` also leaves the persisted state untouched). -/
theorem wrong_phase_gating (e1 : Pebble.PostCredentialEnv) (e2 : Pebble.VoteEnv)
    (e3 : Pebble.PostDecEnv) (s : Pebble.SecretsState) :
    (((Pebble.PostCredential e1).1 = .error .wrongPhase) ↔ e1.phase ≠ .CredGen) ∧
    (e1.phase ≠ .CredGen → (Pebble.PostCredential e1).2 = []) ∧
    (((Pebble.Vote e2 s).1 = .error .wrongPhase) ↔ e2.phase ≠ .Cast) ∧
    (e2.phase ≠ .Cast → (Pebble.Vote e2 s).2.2 = [] ∧ (Pebble.Vote e2 s).2.1 = s) ∧
    (((Pebble.PostBallotDecryption e3).1 = .error .wrongPhase) ↔ e3.phase ≠ .Tally) ∧
    (e3.phase ≠ .Tally → (Pebble.PostBallotDecryption e3).2 = []) := by
  refine ⟨?_, ?_, ?_, ?_, ?_, ?_⟩
  · obtain ⟨ph, gpk, gsc, sp, se, pe⟩ := e1
    cases ph <;> cases gpk <;> cases gsc <;> cases sp <;> cases se <;> cases pe <;>
      simp [Pebble.PostCredential]
  · obtain ⟨ph, gpk, gsc, sp, se, pe⟩ := e1
    cases ph <;> simp [Pebble.PostCredential]
  · obtain ⟨ph, cg, ms, vc, sv, gsc, er, sb, sbe, pe⟩ := e2
    cases ph <;> cases cg <;> cases ms <;> cases vc <;> cases sv <;> cases gsc <;>
      cases er <;> cases sb <;> cases sbe <;> cases pe <;>
      simp [Pebble.Vote, Pebble.ElectionPhase.val]
  · obtain ⟨ph, cg, ms, vc, sv, gsc, er, sb, sbe, pe⟩ := e2
    cases ph <;> simp [Pebble.Vote]
  · obtain ⟨ph, pe⟩ := e3
    cases ph <;> cases pe <;> simp [Pebble.PostBallotDecryption]
  · obtain ⟨ph, pe⟩ := e3
    cases ph <;> simp [Pebble.PostBallotDecryption]

/-- Before the Tally phase, one pass of the signed-ballot loop only
counts verified ballots: serial numbers stay unrecorded, no ballot is
decrypted and the decryption counters stay put. -/
theorem progressFold_fields_cast {τ : Type} (env : Pebble.ProgressEnv τ)
    (set : List (Pebble.Bytes × Pebble.Bytes)) (phase : Pebble.ElectionPhase)
    (dms : List Pebble.DecryptionMessage)
    (hph : phase.val < Pebble.ElectionPhase.Tally.val) :
    ∀ (sbs : List Pebble.SignedBallot) (acc : Pebble.ProgressAcc),
      acc.serialNos = [] →
      sbs.foldl (Pebble.progressStep env set phase dms) acc =
        ⟨[], acc.decBallots,
          acc.validSignBallots + Pebble.validSignSpec env set sbs,
          acc.validDecBallots, acc.invalidDecBallots⟩ := by
  have hnot : ¬ Pebble.ElectionPhase.Tally.val ≤ phase.val := by omega
  intro sbs
  induction sbs with
  | nil =>
    intro acc h
    obtain ⟨sn, db, vs, vd, idb⟩ := acc
    simp only at h
    subst h
    simp [Pebble.validSignSpec, Pebble.verifiedBallots]
  | cons b bs ih =>
    intro acc h
    obtain ⟨sn, db, vs, vd, idb⟩ := acc
    simp only at h
    subst h
    by_cases hv : env.verifySB set b
    · have hstep : Pebble.progressStep env set phase dms ⟨[], db, vs, vd, idb⟩ b =
          ⟨[], db, vs + 1, vd, idb⟩ := by
        simp [Pebble.progressStep, hv, hnot]
      rw [List.foldl_cons, hstep, ih ⟨[], db, vs + 1, vd, idb⟩ rfl]
      simp [Pebble.validSignSpec, Pebble.verifiedBallots, List.filter_cons, hv]
      omega
    · have hstep : Pebble.progressStep env set phase dms ⟨[], db, vs, vd, idb⟩ b =
          ⟨[], db, vs, vd, idb⟩ := by
        simp [Pebble.progressStep, hv]
      rw [List.foldl_cons, hstep, ih ⟨[], db, vs, vd, idb⟩ rfl]
      simp [Pebble.validSignSpec, Pebble.verifiedBallots, List.filter_cons, hv]

/-- From the Tally phase on, one pass of the signed-ballot loop
produces exactly the filter-based counters: verified ballots, their
successful decryptions in order, and the failed-decryption count. -/
theorem progressFold_fields_tally {τ : Type} (env : Pebble.ProgressEnv τ)
    (set : List (Pebble.Bytes × Pebble.Bytes)) (phase : Pebble.ElectionPhase)
    (dms : List Pebble.DecryptionMessage)
    (hph : Pebble.ElectionPhase.Tally.val ≤ phase.val) :
    ∀ (sbs : List Pebble.SignedBallot) (acc : Pebble.ProgressAcc),
      acc.serialNos = [] →
      sbs.foldl (Pebble.progressStep env set phase dms) acc =
        ⟨[], acc.decBallots ++ Pebble.decBallotsSpec env set dms sbs,
          acc.validSignBallots + Pebble.validSignSpec env set sbs,
          acc.validDecBallots + Pebble.validDecSpec env set dms sbs,
          acc.invalidDecBallots + Pebble.invalidDecSpec env set dms sbs⟩ := by
  intro sbs
  induction sbs with
  | nil =>
    intro acc h
    obtain ⟨sn, db, vs, vd, idb⟩ := acc
    simp only at h
    subst h
    simp [Pebble.validSignSpec, Pebble.verifiedBallots, Pebble.validDecSpec,
      Pebble.decBallotsSpec, Pebble.invalidDecSpec]
  | cons b bs ih =>
    intro acc h
    obtain ⟨sn, db, vs, vd, idb⟩ := acc
    simp only at h
    subst h
    by_cases hv : env.verifySB set b
    · rcases hd : Pebble.decryptBallot env b.encryptedBallot dms with e | ballot
      · cases e with
        | decryptionNotFound =>
          have hstep : Pebble.progressStep env set phase dms ⟨[], db, vs, vd, idb⟩ b =
              ⟨[], db, vs + 1, vd, idb⟩ := by
            simp [Pebble.progressStep, hv, hph, hd]
          rw [List.foldl_cons, hstep, ih ⟨[], db, vs + 1, vd, idb⟩ rfl]
          simp [Pebble.validSignSpec, Pebble.verifiedBallots, Pebble.validDecSpec,
            Pebble.decBallotsSpec, Pebble.invalidDecSpec, List.filter_cons,
            List.filterMap_cons, hv, hd, Except.toOption]
          omega
        | decryptFailed code =>
          have hstep : Pebble.progressStep env set phase dms ⟨[], db, vs, vd, idb⟩ b =
              ⟨[], db, vs + 1, vd, idb + 1⟩ := by
            simp [Pebble.progressStep, hv, hph, hd]
          rw [List.foldl_cons, hstep, ih ⟨[], db, vs + 1, vd, idb + 1⟩ rfl]
          simp [Pebble.validSignSpec, Pebble.verifiedBallots, Pebble.validDecSpec,
            Pebble.decBallotsSpec, Pebble.invalidDecSpec, List.filter_cons,
            List.filterMap_cons, hv, hd, Except.toOption]
          omega
      · have hstep : Pebble.progressStep env set phase dms ⟨[], db, vs, vd, idb⟩ b =
            ⟨[], db ++ [ballot], vs + 1, vd + 1, idb⟩ := by
          simp [Pebble.progressStep, hv, hph, hd]
        rw [List.foldl_cons, hstep, ih ⟨[], db ++ [ballot], vs + 1, vd + 1, idb⟩ rfl]
        simp [Pebble.validSignSpec, Pebble.verifiedBallots, Pebble.validDecSpec,
          Pebble.decBallotsSpec, Pebble.invalidDecSpec, List.filter_cons,
          List.filterMap_cons, hv, hd, Except.toOption]
        omega
    · have hstep : Pebble.progressStep env set phase dms ⟨[], db, vs, vd, idb⟩ b =
          ⟨[], db, vs, vd, idb⟩ := by
        simp [Pebble.progressStep, hv]
      rw [List.foldl_cons, hstep, ih ⟨[], db, vs, vd, idb⟩ rfl]
      simp [Pebble.validSignSpec, Pebble.verifiedBallots, Pebble.validDecSpec,
        Pebble.decBallotsSpec, Pebble.invalidDecSpec, List.filter_cons,
        List.filterMap_cons, hv]

/-- C5: while the phase is before Tally (CredGen or Cast — Setup is
unreachable), `Progress` reports no tally and the signed-ballot loop
produces no decrypted ballots, whatever messages (including premature
decryption messages) the log holds; decryption is attempted only in
the Tally and End phases. -/
theorem no_decryption_before_tally {τ : Type} (env : Pebble.ProgressEnv τ)
    (msgs : List Pebble.Message) (phase : Pebble.ElectionPhase)
    (set : List (Pebble.Bytes × Pebble.Bytes))
    (h : phase.val < Pebble.ElectionPhase.Tally.val) :
    (Pebble.Progress env phase msgs).tally = none ∧
    (Pebble.progressLoop env set phase (Pebble.signedBallotsOf msgs)
      (Pebble.decryptionsOf msgs)).decBallots = [] := by
  constructor
  · cases phase <;>
      simp_all [Pebble.Progress, Pebble.ElectionPhase.val]
  · rw [Pebble.progressLoop,
      progressFold_fields_cast env set phase (Pebble.decryptionsOf msgs) h
        (Pebble.signedBallotsOf msgs) ⟨[], [], 0, 0, 0⟩ rfl]

/-- Witness for C5 at the Cast phase on a log that already carries a
matching decryption message. -/
theorem no_decryption_before_tally_witness :
    (Pebble.Progress Pebble.allOkEnv .Cast Pebble.castWithDecLog).tally = none ∧
    (Pebble.progressLoop Pebble.allOkEnv [] .Cast
      (Pebble.signedBallotsOf Pebble.castWithDecLog)
      (Pebble.decryptionsOf Pebble.castWithDecLog)).decBallots = [] :=
  no_decryption_before_tally Pebble.allOkEnv Pebble.castWithDecLog .Cast [] (by decide)

/-- C6: the reporting formulas of `Progress`.  With the counters over
the verified signed ballots (the serial-number dedup check of the
loop is vacuous — see C1), the Cast phase reports
`total = credential_set.len`, `count = valid_sign` and no tally; the
Tally phase reports `total = valid_sign − invalid_dec`,
`count = valid_dec` and the tally of the decrypted ballots; the End
phase reports `total = valid_sign`, `count = valid_dec` and the same
tally. -/
theorem progress_report_formulas {τ : Type} (env : Pebble.ProgressEnv τ)
    (msgs : List Pebble.Message) :
    (Pebble.Progress env .Cast msgs =
      ⟨.Cast,
        Pebble.validSignSpec env
          (Pebble.credentialMap env.sigOk env.ReadPublicCredential env.Hash msgs)
          (Pebble.signedBallotsOf msgs),
        (Pebble.credentialMap env.sigOk env.ReadPublicCredential env.Hash msgs).length,
        none⟩) ∧
    (Pebble.Progress env .Tally msgs =
      ⟨.Tally,
        Pebble.validDecSpec env
          (Pebble.credentialMap env.sigOk env.ReadPublicCredential env.Hash msgs)
          (Pebble.decryptionsOf msgs) (Pebble.signedBallotsOf msgs),
        (Pebble.validSignSpec env
            (Pebble.credentialMap env.sigOk env.ReadPublicCredential env.Hash msgs)
            (Pebble.signedBallotsOf msgs) : Int) -
          (Pebble.invalidDecSpec env
            (Pebble.credentialMap env.sigOk env.ReadPublicCredential env.Hash msgs)
            (Pebble.decryptionsOf msgs) (Pebble.signedBallotsOf msgs) : Int),
        some (env.tallyFn (Pebble.decBallotsSpec env
          (Pebble.credentialMap env.sigOk env.ReadPublicCredential env.Hash msgs)
          (Pebble.decryptionsOf msgs) (Pebble.signedBallotsOf msgs)))⟩) ∧
    (Pebble.Progress env .End msgs =
      ⟨.End,
        Pebble.validDecSpec env
          (Pebble.credentialMap env.sigOk env.ReadPublicCredential env.Hash msgs)
          (Pebble.decryptionsOf msgs) (Pebble.signedBallotsOf msgs),
        Pebble.validSignSpec env
          (Pebble.credentialMap env.sigOk env.ReadPublicCredential env.Hash msgs)
          (Pebble.signedBallotsOf msgs),
        some (env.tallyFn (Pebble.decBallotsSpec env
          (Pebble.credentialMap env.sigOk env.ReadPublicCredential env.Hash msgs)
          (Pebble.decryptionsOf msgs) (Pebble.signedBallotsOf msgs)))⟩) := by
  refine ⟨?_, ?_, ?_⟩
  · have hfold := progressFold_fields_cast env
      (Pebble.credentialMap env.sigOk env.ReadPublicCredential env.Hash msgs) .Cast
      (Pebble.decryptionsOf msgs) (by decide) (Pebble.signedBallotsOf msgs)
      ⟨[], [], 0, 0, 0⟩ rfl
    simp [Pebble.Progress, Pebble.ElectionPhase.val, Pebble.progressLoop, hfold]
  · have hfold := progressFold_fields_tally env
      (Pebble.credentialMap env.sigOk env.ReadPublicCredential env.Hash msgs) .Tally
      (Pebble.decryptionsOf msgs) (by decide) (Pebble.signedBallotsOf msgs)
      ⟨[], [], 0, 0, 0⟩ rfl
    simp [Pebble.Progress, Pebble.ElectionPhase.val, Pebble.progressLoop, hfold]
  · have hfold := progressFold_fields_tally env
      (Pebble.credentialMap env.sigOk env.ReadPublicCredential env.Hash msgs) .End
      (Pebble.decryptionsOf msgs) (by decide) (Pebble.signedBallotsOf msgs)
      ⟨[], [], 0, 0, 0⟩ rfl
    simp [Pebble.Progress, Pebble.ElectionPhase.val, Pebble.progressLoop, hfold]

/-- Looking up a key after a Go map assignment finds the assigned
value for that key and is unchanged elsewhere. -/
theorem mapLookup_insert {α : Type} :
    ∀ (m : List (Pebble.Bytes × α)) (k : Pebble.Bytes) (v : α) (h : Pebble.Bytes),
      Pebble.mapLookup (Pebble.mapInsert m k v) h =
        if k = h then some v else Pebble.mapLookup m h := by
  intro m
  induction m with
  | nil => intro k v h; simp [Pebble.mapInsert, Pebble.mapLookup]
  | cons e m ih =>
    intro k v h
    obtain ⟨k0, v0⟩ := e
    by_cases h0 : k0 = k
    · subst h0
      by_cases hk : k0 = h <;> simp [Pebble.mapInsert, Pebble.mapLookup, hk]
    · by_cases hk0 : k0 = h <;> by_cases hk : k = h <;>
        simp_all [Pebble.mapInsert, Pebble.mapLookup, ih]

/-- The credential-message loop is lookup-equivalent to a last-wins
fold over the valid credential entries. -/
theorem credfold_lookup (sigOk : Pebble.CredentialMessage → Bool)
    (rpc : Pebble.Bytes → Option Pebble.Bytes) (Hash : Pebble.Bytes → Pebble.Bytes)
    (h : Pebble.Bytes) :
    ∀ (msgs : List Pebble.Message) (creds : List (Pebble.Bytes × Pebble.Bytes)),
      Pebble.mapLookup (msgs.foldl (Pebble.credStep sigOk rpc Hash) creds) h =
        (Pebble.validCredEntries sigOk rpc Hash msgs).foldl (Pebble.lwStep h)
          (Pebble.mapLookup creds h) := by
  intro msgs
  induction msgs with
  | nil => intro creds; simp [Pebble.validCredEntries]
  | cons msg ms ih =>
    intro creds
    rw [List.foldl_cons]
    cases msg with
    | params p => simpa [Pebble.credStep, Pebble.validCredEntries] using ih creds
    | signedBallot b => simpa [Pebble.credStep, Pebble.validCredEntries] using ih creds
    | decryption d => simpa [Pebble.credStep, Pebble.validCredEntries] using ih creds
    | credential c =>
      by_cases hs : sigOk c
      · rcases hr : rpc c.credential with _ | cred
        · simpa [Pebble.credStep, Pebble.validCredEntries, hs, hr] using ih creds
        · have hstep : Pebble.credStep sigOk rpc Hash creds (Pebble.Message.credential c) =
              Pebble.mapInsert creds (Hash c.publicKey) cred := by
            simp [Pebble.credStep, hs, hr]
          rw [hstep, ih (Pebble.mapInsert creds (Hash c.publicKey) cred),
            mapLookup_insert]
          simp [Pebble.validCredEntries, List.filterMap_cons, hs, hr, Pebble.lwStep]
      · simpa [Pebble.credStep, Pebble.validCredEntries, hs] using ih creds

/-- Membership in the keys of a map after an assignment. -/
theorem mem_mapKeys_insert {α : Type} :
    ∀ (m : List (Pebble.Bytes × α)) (k : Pebble.Bytes) (v : α) (h : Pebble.Bytes),
      h ∈ Pebble.mapKeys (Pebble.mapInsert m k v) ↔
        h ∈ Pebble.mapKeys m ∨ h = k := by
  intro m
  induction m with
  | nil => intro k v h; simp [Pebble.mapInsert, Pebble.mapKeys]
  | cons e m ih =>
    intro k v h
    obtain ⟨k0, v0⟩ := e
    by_cases h0 : k0 = k
    · subst h0
      simp [Pebble.mapInsert, Pebble.mapKeys]
      tauto
    · simp [Pebble.mapInsert, Pebble.mapKeys, h0] at ih ⊢
      rw [ih]
      tauto

/-- A Go map assignment preserves key uniqueness. -/
theorem mapKeys_insert_nodup {α : Type} :
    ∀ (m : List (Pebble.Bytes × α)) (k : Pebble.Bytes) (v : α),
      (Pebble.mapKeys m).Nodup → (Pebble.mapKeys (Pebble.mapInsert m k v)).Nodup := by
  intro m
  induction m with
  | nil => intro k v _; simp [Pebble.mapInsert, Pebble.mapKeys]
  | cons e m ih =>
    intro k v hnd
    obtain ⟨k0, v0⟩ := e
    simp only [Pebble.mapKeys, List.map_cons, List.nodup_cons] at hnd
    by_cases h0 : k0 = k
    · subst h0
      have hi : Pebble.mapInsert ((k0, v0) :: m) k0 v = (k0, v) :: m := by
        simp [Pebble.mapInsert]
      rw [hi]
      simp only [Pebble.mapKeys, List.map_cons, List.nodup_cons]
      exact ⟨hnd.1, hnd.2⟩
    · have hi : Pebble.mapInsert ((k0, v0) :: m) k v = (k0, v0) :: Pebble.mapInsert m k v := by
        simp [Pebble.mapInsert, h0]
      rw [hi]
      simp only [Pebble.mapKeys, List.map_cons, List.nodup_cons]
      refine ⟨?_, ih k v hnd.2⟩
      intro hmem
      rcases (mem_mapKeys_insert m k v k0).mp hmem with hin | heq
      · exact hnd.1 hin
      · exact h0 heq

/-- The credential-message loop preserves key uniqueness of the
`creds` map. -/
theorem credfold_keys_nodup (sigOk : Pebble.CredentialMessage → Bool)
    (rpc : Pebble.Bytes → Option Pebble.Bytes) (Hash : Pebble.Bytes → Pebble.Bytes) :
    ∀ (msgs : List Pebble.Message) (creds : List (Pebble.Bytes × Pebble.Bytes)),
      (Pebble.mapKeys creds).Nodup →
      (Pebble.mapKeys (msgs.foldl (Pebble.credStep sigOk rpc Hash) creds)).Nodup := by
  intro msgs
  induction msgs with
  | nil => intro creds h; simpa using h
  | cons msg ms ih =>
    intro creds h
    rw [List.foldl_cons]
    cases msg with
    | params p => exact ih creds h
    | signedBallot b => exact ih creds h
    | decryption d => exact ih creds h
    | credential c =>
      by_cases hs : sigOk c
      · rcases hr : rpc c.credential with _ | cred
        · simpa [Pebble.credStep, hs, hr] using ih creds h
        · have h2 := mapKeys_insert_nodup creds (Hash c.publicKey) cred h
          simpa [Pebble.credStep, hs, hr] using
            ih (Pebble.mapInsert creds (Hash c.publicKey) cred) h2
      · simpa [Pebble.credStep, hs] using ih creds h

/-- Lookup distributes over list append, preferring the left part. -/
theorem mapLookup_append {α : Type} :
    ∀ (l1 l2 : List (Pebble.Bytes × α)) (h : Pebble.Bytes),
      Pebble.mapLookup (l1 ++ l2) h =
        match Pebble.mapLookup l1 h with
        | some v => some v
        | none => Pebble.mapLookup l2 h := by
  intro l1
  induction l1 with
  | nil => intro l2 h; simp [Pebble.mapLookup]
  | cons e l1 ih =>
    intro l2 h
    obtain ⟨k0, v0⟩ := e
    by_cases hk : k0 = h <;> simp [Pebble.mapLookup, hk, ih]

/-- A last-wins fold is a first-wins lookup on the reversed list. -/
theorem lwFold_reverse (h : Pebble.Bytes) :
    ∀ (es : List (Pebble.Bytes × Pebble.Bytes)) (o : Option Pebble.Bytes),
      es.foldl (Pebble.lwStep h) o =
        match Pebble.mapLookup es.reverse h with
        | some v => some v
        | none => o := by
  intro es
  induction es with
  | nil => intro o; simp [Pebble.mapLookup]
  | cons e es ih =>
    intro o
    rw [List.foldl_cons, ih (Pebble.lwStep h o e)]
    rw [List.reverse_cons, mapLookup_append]
    rcases hL : Pebble.mapLookup es.reverse h with _ | v
    · simp [Pebble.mapLookup, Pebble.lwStep]
      split <;> simp
    · simp

/-- C9: credential deduplication is last-write-wins per
public-key hash: the `creds` map of `GetCredentialSet` holds at most
one credential per hash (its keys are unique), and the credential it
holds for a hash is the one parsed from the last valid credential
message with that public-key hash in log order (the last-wins value,
equivalently the first match in the reversed entry list). -/
theorem credential_dedup_last_write_wins (sigOk : Pebble.CredentialMessage → Bool)
    (rpc : Pebble.Bytes → Option Pebble.Bytes) (Hash : Pebble.Bytes → Pebble.Bytes)
    (msgs : List Pebble.Message) (h : Pebble.Bytes) :
    Pebble.mapLookup (Pebble.credentialMap sigOk rpc Hash msgs) h =
      Pebble.lastWins (Pebble.validCredEntries sigOk rpc Hash msgs) h ∧
    Pebble.lastWins (Pebble.validCredEntries sigOk rpc Hash msgs) h =
      Pebble.mapLookup (Pebble.validCredEntries sigOk rpc Hash msgs).reverse h ∧
    (Pebble.mapKeys (Pebble.credentialMap sigOk rpc Hash msgs)).Nodup := by
  refine ⟨?_, ?_, ?_⟩
  · rw [Pebble.credentialMap, Pebble.lastWins, credfold_lookup]
    rfl
  · rw [Pebble.lastWins, lwFold_reverse]
    rcases hL : Pebble.mapLookup (Pebble.validCredEntries sigOk rpc Hash msgs).reverse h
      with _ | v <;> simp
  · exact credfold_keys_nodup sigOk rpc Hash msgs [] (by simp [Pebble.mapKeys])

/-- Witness for C7 at concrete environments: `PostCredential` during
Cast answers `wrong-phase` with an empty trace. -/
theorem wrong_phase_gating_witness :
    ((Pebble.PostCredential ⟨.Cast, .ok (), .ok (), .ok (), none, none⟩).1 =
        .error .wrongPhase ↔ (Pebble.ElectionPhase.Cast ≠ .CredGen)) ∧
    (Pebble.ElectionPhase.Cast ≠ .CredGen →
      (Pebble.PostCredential ⟨.Cast, .ok (), .ok (), .ok (), none, none⟩).2 = []) :=
  ⟨(wrong_phase_gating ⟨.Cast, .ok (), .ok (), .ok (), none, none⟩
      Pebble.credGenVoteEnv ⟨.Cast, none⟩ Pebble.emptySecrets).1,
    (wrong_phase_gating ⟨.Cast, .ok (), .ok (), .ok (), none, none⟩
      Pebble.credGenVoteEnv ⟨.Cast, none⟩ Pebble.emptySecrets).2.1⟩
